import Mathlib

/-!
Verification of the 10kay pipeline orchestration core against its
natural-language specification.

The definitions below are a shallow embedding of the Python sources:
  - `pipeline/fetchers/edgar.py`   (`_rate_limit`, `save_to_database`)
  - `pipeline/fetchers/base.py`    (`check_if_exists`, `process_company`)
  - `pipeline/analyzers/base.py`   (`check_if_analyzed`, `process_filing`)
  - `pipeline/analyzers/claude.py` (`save_to_database`)
  - `analyze_parallel.py`          (`analyze_filing`, `main`)
  - `orchestrate_parallel.py`      (`main` monitoring loop)

Wall-clock time is modelled by rational numbers; external effects
(LLM calls, HTTP, the database) are modelled by explicit oracles and an
explicit store passed through each function.
-/

namespace TenKay

/-! ## Rate limiter (pipeline/fetchers/edgar.py, lines 54-70)

`EdgarFetcher.__init__` sets `last_request_time = 0` and
`min_request_interval = 1.0 / rate_limit_requests`.

`_rate_limit` reads the clock, sleeps for the remaining part of the
interval if the last request was too recent, then re-reads the clock and
stores it:

    elapsed = time.time() - self.last_request_time
    if elapsed < self.min_request_interval:
        sleep_time = self.min_request_interval - elapsed
        time.sleep(sleep_time)
    self.last_request_time = time.time()

A call is modelled by its two clock readings: `entryTime` (the reading
used to compute `elapsed`) and `exitTime` (the reading stored into
`last_request_time`, immediately before the call returns).  The clock is
monotone, and `time.sleep d` guarantees that at least `d` seconds pass,
so a trace of calls is valid when each entry reading is at least the
previous stored reading and each exit reading is at least the entry
reading plus the computed sleep duration. -/

structure RateLimitCall where
  entryTime : ℚ
  exitTime : ℚ

/-- The sleep duration computed by `_rate_limit` from the current clock
reading and the stored `last_request_time`. -/
def sleepTime (minInterval lastRequestTime now : ℚ) : ℚ :=
  if now - lastRequestTime < minInterval then minInterval - (now - lastRequestTime) else 0

/-- Validity of a trace of sequential `_rate_limit` calls starting from a
stored timestamp `last`: the clock is monotone across the call boundary,
and the exit reading accounts for the sleep performed by the call. -/
def ValidTrace (minInterval : ℚ) : ℚ → List RateLimitCall → Prop
  | _, [] => True
  | last, c :: rest =>
      (last ≤ c.entryTime ∧
        c.entryTime + sleepTime minInterval last c.entryTime ≤ c.exitTime) ∧
      ValidTrace minInterval c.exitTime rest

/-- The sequence of return times of the calls in a trace. -/
def exitTimes (calls : List RateLimitCall) : List ℚ :=
  calls.map (fun c => c.exitTime)

/-- One `_rate_limit` call always returns at least `minInterval` after the
previously stored timestamp. -/
theorem exit_ge_last_add_interval (minInterval last : ℚ) (c : RateLimitCall)
    (_h1 : last ≤ c.entryTime)
    (h2 : c.entryTime + sleepTime minInterval last c.entryTime ≤ c.exitTime) :
    last + minInterval ≤ c.exitTime := by
  unfold sleepTime at h2
  by_cases h : c.entryTime - last < minInterval
  · rw [if_pos h] at h2
    linarith
  · rw [if_neg h] at h2
    push_neg at h
    linarith

/-- The value of `last_request_time` after running a trace of calls:
each call overwrites it with its exit clock reading. -/
def finalTimestamp (last : ℚ) : List RateLimitCall → ℚ
  | [] => last
  | c :: rest => finalTimestamp c.exitTime rest

/-- Along a valid trace, the stored timestamp advances by at least
`minInterval` per call. -/
theorem finalTimestamp_ge (minInterval : ℚ) :
    ∀ (calls : List RateLimitCall) (last : ℚ),
      ValidTrace minInterval last calls →
      last + (calls.length : ℚ) * minInterval ≤ finalTimestamp last calls
  | [], last, _ => by simp [finalTimestamp]
  | c :: rest, last, h => by
    obtain ⟨⟨h1, h2⟩, hrest⟩ := h
    have hc : last + minInterval ≤ c.exitTime :=
      exit_ge_last_add_interval minInterval last c h1 h2
    have ih := finalTimestamp_ge minInterval rest c.exitTime hrest
    have hlen : ((c :: rest).length : ℚ) = (rest.length : ℚ) + 1 := by
      push_cast [List.length_cons]
      ring
    rw [hlen, finalTimestamp]
    linarith

/-- Along a valid trace, consecutive return times are spaced by at least
`minInterval`. -/
theorem exitTimes_chain (minInterval : ℚ) :
    ∀ (calls : List RateLimitCall) (last : ℚ),
      ValidTrace minInterval last calls →
      List.Chain' (fun a b => a + minInterval ≤ b) (exitTimes calls)
  | [], _, _ => List.chain'_nil
  | [_], _, _ => List.chain'_singleton _
  | c :: c2 :: rest, last, h => by
    obtain ⟨⟨_, _⟩, ⟨h21, h22⟩, hrest⟩ := h
    have step : c.exitTime + minInterval ≤ c2.exitTime :=
      exit_ge_last_add_interval minInterval c.exitTime c2 h21 h22
    have ih := exitTimes_chain minInterval (c2 :: rest) c.exitTime ⟨⟨h21, h22⟩, hrest⟩
    exact List.Chain'.cons step ih

/-- C2: for every sequence of sequential `_rate_limit` calls on one fetcher
instance in one thread, consecutive return times are separated by at least
`min_request_interval` seconds, and a run of `n` calls spans at least
`(n - 1) * min_request_interval` seconds from the first return to the end
of the run (so 5 calls with a 0.5-second interval span at least 2 seconds). -/
theorem C2_rate_limiter_spacing (minInterval last : ℚ) (calls : List RateLimitCall)
    (h : ValidTrace minInterval last calls) :
    List.Chain' (fun a b => a + minInterval ≤ b) (exitTimes calls) ∧
    ∀ c rest, calls = c :: rest →
      c.exitTime + (rest.length : ℚ) * minInterval ≤ finalTimestamp last calls := by
  refine ⟨exitTimes_chain minInterval calls last h, ?_⟩
  intro c rest hc
  subst hc
  obtain ⟨_, hrest⟩ := h
  have := finalTimestamp_ge minInterval rest c.exitTime hrest
  rw [finalTimestamp]
  linarith

/-- A concrete trace of 5 sequential `_rate_limit` calls with
`min_request_interval = 0.5`, starting from the initial
`last_request_time = 0`: the first call finds the (huge) elapsed time
above the interval and returns at clock 100; each later call sleeps the
remaining half second. -/
def fiveAcquireTrace : List RateLimitCall :=
  [⟨100, 100⟩, ⟨100, 201/2⟩, ⟨201/2, 101⟩, ⟨101, 203/2⟩, ⟨203/2, 102⟩]

theorem C2_rate_limiter_spacing_witness :
    ValidTrace (1/2) 0 fiveAcquireTrace ∧
    (100 : ℚ) + 4 * (1/2) ≤ finalTimestamp 0 fiveAcquireTrace := by
  have hv : ValidTrace (1/2) 0 fiveAcquireTrace := by
    norm_num [fiveAcquireTrace, ValidTrace, sleepTime]
  refine ⟨hv, ?_⟩
  have h := (C2_rate_limiter_spacing (1/2) 0 fiveAcquireTrace hv).2
    ⟨100, 100⟩ [⟨100, 201/2⟩, ⟨201/2, 101⟩, ⟨101, 203/2⟩, ⟨203/2, 102⟩] rfl
  norm_num at h ⊢
  convert h using 2

/-! ## Parallel analyze batch runner (analyze_parallel.py)

Each worker runs `analyze_filing(filing_id, ticker, filing_type, ...)`,
which wraps the whole unit of work in `try/except Exception` and always
returns a `(filing_id, success, message)` triple (lines 38-57).  The
behaviour of the external work (`ClaudeAnalyzer.process_filing`) for a
given unit is modelled as an oracle: it either raises, or returns an
optional content id (`None` means the idempotent skip). -/

/-- Outcome of one `process_filing` call: raises an exception, or returns
`Optional[str]` (`none` = already analyzed, skipped). -/
inductive ProcessOutcome where
  | raises (msg : String)
  | returns (contentId : Option String)
deriving DecidableEq

/-- A row of `get_pending_filings` (analyze_parallel.py lines 60-78):
`(f.id, c.ticker, f.filing_type, c.name)`. -/
structure PendingFiling where
  filingId : String
  ticker : String
  filingType : String
  companyName : String
deriving DecidableEq

/-- The body of the `try` block in `analyze_filing` (lines 38-49):
the call to `process_filing` either raises or produces an optional
content id. -/
def processFilingCall (outcome : ProcessOutcome) : Except String (Option String) :=
  match outcome with
  | .raises msg => .error msg
  | .returns r => .ok r

/-- Function `analyze_filing` (analyze_parallel.py lines 25-57): catches every
exception from the unit of work and always returns a
`(filing_id, success, message)` triple; an exception and a `None` content
id both yield `success = false`, with distinct message markers. -/
def analyze_filing (outcome : ProcessOutcome) (f : PendingFiling) :
    String × Bool × String :=
  match processFilingCall outcome with
  | .ok (some _) => (f.filingId, true, "✓ " ++ f.ticker ++ " " ++ f.filingType)
  | .ok none =>
      (f.filingId, false, "⊘ " ++ f.ticker ++ " " ++ f.filingType ++ " (no content_id)")
  | .error e =>
      (f.filingId, false, "✗ " ++ f.ticker ++ " " ++ f.filingType ++ ": " ++ e.take 100)

/-- The worker results consumed by the aggregation loop, in completion
order (`as_completed` yields them in an arbitrary order, modelled by
quantifying over permutations of the submission list in the theorems). -/
def workerResults (behavior : PendingFiling → ProcessOutcome)
    (order : List PendingFiling) : List (String × Bool × String) :=
  order.map (fun f => analyze_filing (behavior f) f)

/-- The final summary printed by `main` (lines 149-191): `successful` and
`failed` are incremented per completed future from the `success` flag;
`Total` is the number of pending filings. -/
structure BatchSummary where
  successful : ℕ
  failed : ℕ
  total : ℕ
deriving DecidableEq

/-- Aggregation loop of `main` (lines 168-191) over the worker results. -/
def batchSummary (pending : List PendingFiling)
    (results : List (String × Bool × String)) : BatchSummary :=
  { successful := results.countP (fun r => r.2.1)
    failed := results.countP (fun r => !r.2.1)
    total := pending.length }

/-- Whether the oracle raises for a unit. -/
def raisesB (o : ProcessOutcome) : Bool :=
  match o with
  | .raises _ => true
  | _ => false

/-- Whether the oracle returns a content id for a unit. -/
def succeedsB (o : ProcessOutcome) : Bool :=
  match o with
  | .returns (some _) => true
  | _ => false

/-- Whether the oracle performs the idempotent skip (`None`). -/
def skipsB (o : ProcessOutcome) : Bool :=
  match o with
  | .returns none => true
  | _ => false

theorem analyze_filing_success_eq (outcome : ProcessOutcome) (f : PendingFiling) :
    (analyze_filing outcome f).2.1 = succeedsB outcome := by
  cases outcome with
  | raises msg => rfl
  | returns r => cases r <;> rfl

theorem summary_successful_eq (pending order : List PendingFiling)
    (behavior : PendingFiling → ProcessOutcome) (hperm : order.Perm pending) :
    (batchSummary pending (workerResults behavior order)).successful
      = pending.countP (fun f => succeedsB (behavior f)) := by
  show (workerResults behavior order).countP (fun r => r.2.1) = _
  unfold workerResults
  rw [List.countP_map, hperm.countP_eq]
  exact List.countP_congr (fun f _ => by
    simp [Function.comp, analyze_filing_success_eq])

theorem summary_failed_eq (pending order : List PendingFiling)
    (behavior : PendingFiling → ProcessOutcome) (hperm : order.Perm pending) :
    (batchSummary pending (workerResults behavior order)).failed
      = pending.countP (fun f => !succeedsB (behavior f)) := by
  show (workerResults behavior order).countP (fun r => !r.2.1) = _
  unfold workerResults
  rw [List.countP_map, hperm.countP_eq]
  exact List.countP_congr (fun f _ => by
    simp [Function.comp, analyze_filing_success_eq])

/-- C1: for a batch of N candidate filings of which exactly K raise an
exception inside the worker (and the rest complete with a content id),
the run aggregates a completed result for every unit — `analyze_filing`
is total, so no exception reaches the `as_completed` loop in any
completion order — and the final summary reports
`successful = N - K`, `failed = K`, `total = N`. -/
theorem C1_batch_isolation (pending order : List PendingFiling)
    (behavior : PendingFiling → ProcessOutcome) (K : ℕ)
    (hperm : order.Perm pending)
    (hK : pending.countP (fun f => raisesB (behavior f)) = K)
    (hok : ∀ f ∈ pending, raisesB (behavior f) = false → succeedsB (behavior f) = true) :
    batchSummary pending (workerResults behavior order)
      = ⟨pending.length - K, K, pending.length⟩ := by
  have hsucc : pending.countP (fun f => succeedsB (behavior f))
      = pending.countP (fun f => !raisesB (behavior f)) := by
    refine List.countP_congr (fun f hf => ?_)
    cases hb : behavior f with
    | raises msg => simp [succeedsB, raisesB]
    | returns r =>
      cases r with
      | none =>
        have := hok f hf
        rw [hb] at this
        simp [raisesB] at this
        simp [succeedsB] at this
      | some id => simp [succeedsB, raisesB]
  have hfail : pending.countP (fun f => !succeedsB (behavior f))
      = pending.countP (fun f => raisesB (behavior f)) := by
    refine List.countP_congr (fun f hf => ?_)
    cases hb : behavior f with
    | raises msg => simp [succeedsB, raisesB]
    | returns r =>
      cases r with
      | none =>
        have := hok f hf
        rw [hb] at this
        simp [raisesB] at this
        simp [succeedsB] at this
      | some id => simp [succeedsB, raisesB]
  have hlen : pending.length
      = pending.countP (fun f => raisesB (behavior f))
        + pending.countP (fun f => !raisesB (behavior f)) := by
    have h0 := List.length_eq_countP_add_countP
      (p := fun f => raisesB (behavior f)) pending
    simpa using h0
  have h1 := summary_successful_eq pending order behavior hperm
  have h2 := summary_failed_eq pending order behavior hperm
  have htot : (batchSummary pending (workerResults behavior order)).total
      = pending.length := rfl
  have hs : (batchSummary pending (workerResults behavior order)).successful
      = pending.length - K := by
    rw [h1, hsucc]
    omega
  have hf : (batchSummary pending (workerResults behavior order)).failed = K := by
    rw [h2, hfail, hK]
  cases hres : batchSummary pending (workerResults behavior order)
  rw [hres] at hs hf htot
  simp only at hs hf htot
  simp [hs, hf, htot]

/-- Three concrete candidate filings, of which exactly the second one is
rigged to raise inside `process_filing`. -/
def threeFilings : List PendingFiling :=
  [⟨"f1", "AAPL", "10-K", "Apple"⟩, ⟨"f2", "MSFT", "10-Q", "Microsoft"⟩,
    ⟨"f3", "NVDA", "10-K", "Nvidia"⟩]

/-- The rigged oracle for the witness batch: `f2` raises, the others
return a content id. -/
def riggedBehavior (f : PendingFiling) : ProcessOutcome :=
  if f.filingId = "f2" then .raises "Bedrock timeout" else .returns (some "content-1")

theorem C1_batch_isolation_witness :
    threeFilings.Perm threeFilings ∧
    batchSummary threeFilings (workerResults riggedBehavior threeFilings)
      = ⟨2, 1, 3⟩ :=
  ⟨List.Perm.refl _,
    C1_batch_isolation threeFilings threeFilings riggedBehavior 1
      (List.Perm.refl _) (by decide) (by decide)⟩

/-- C6 (amended): a unit that is already done (its `process_filing`
returns `None`) is distinguished only in the printed message (the `⊘ …
(no content_id)` marker); in the aggregated summary it is counted into
`failed` — the failure count equals the raising units plus the skipped
units, and there is no separate skip count. -/
theorem C6_skip_counted_as_failure (pending order : List PendingFiling)
    (behavior : PendingFiling → ProcessOutcome) (hperm : order.Perm pending) :
    (batchSummary pending (workerResults behavior order)).failed
      = pending.countP (fun f => raisesB (behavior f))
        + pending.countP (fun f => skipsB (behavior f)) ∧
    (batchSummary pending (workerResults behavior order)).successful
      = pending.countP (fun f => succeedsB (behavior f)) := by
  refine ⟨?_, summary_successful_eq pending order behavior hperm⟩
  rw [summary_failed_eq pending order behavior hperm]
  clear hperm
  induction pending with
  | nil => simp
  | cons f rest ih =>
    rw [List.countP_cons, List.countP_cons, List.countP_cons, ih]
    cases hb : behavior f with
    | raises msg => simp [succeedsB, raisesB, skipsB]; omega
    | returns r =>
      cases r with
      | none => simp [succeedsB, raisesB, skipsB]; omega
      | some id => simp [succeedsB, raisesB, skipsB]

/-- C6 refutation of the claim as stated: a batch whose single unit is
already done yields `successful = 0, failed = 1, total = 1` — the skip is
counted into the failure count of the aggregated result, not separately
from it (the summary has no skip field at all). -/
theorem C6_skip_counted_as_failure_counterexample :
    batchSummary [⟨"f1", "AAPL", "10-K", "Apple"⟩]
        (workerResults (fun _ => ProcessOutcome.returns none)
          [⟨"f1", "AAPL", "10-K", "Apple"⟩])
      = ⟨0, 1, 1⟩ := by
  decide

theorem C6_skip_counted_as_failure_witness :
    threeFilings.Perm threeFilings ∧
    (batchSummary threeFilings (workerResults riggedBehavior threeFilings)).failed
      = threeFilings.countP (fun f => raisesB (riggedBehavior f))
        + threeFilings.countP (fun f => skipsB (riggedBehavior f)) :=
  ⟨List.Perm.refl _,
    (C6_skip_counted_as_failure threeFilings threeFilings riggedBehavior
      (List.Perm.refl _)).1⟩

/-! ### `main` of analyze_parallel.py (lines 81-201)

The run is a function of the parsed arguments, the outcome of the fatal
section (database connect + candidate enumeration, lines 127-133), and
the per-unit oracle.  Its observable result is the exit code, the final
summary (if the aggregation loop ran), the list of units actually handed
to `process_filing`, and the reported candidate count. -/

/-- Outcome of `psycopg2.connect` plus `get_pending_filings`
(analyze_parallel.py lines 127-133): a raised exception, or the candidate
list. -/
inductive ConnectOutcome where
  | connError (msg : String)
  | ok (pending : List PendingFiling)

/-- Observable result of one `main` invocation of analyze_parallel.py. -/
structure MainRun where
  exitCode : ℕ
  reportedSummary : Option BatchSummary
  processedUnits : List PendingFiling
  candidatesFound : Option ℕ
deriving DecidableEq

/-- Function `main` of analyze_parallel.py: argument validation (lines 107-109),
the fatal connect/enumerate section (lines 127-133), the empty-candidate
early return (lines 135-137), the dry-run early return (lines 141-147),
and otherwise the parallel batch with its final summary (lines 149-194).
`order` is the completion order of the workers. -/
def analyze_parallel_main (workers : ℤ) (dryRun : Bool) (connect : ConnectOutcome)
    (behavior : PendingFiling → ProcessOutcome) (order : List PendingFiling) :
    MainRun :=
  if workers < 1 ∨ workers > 10 then
    { exitCode := 1, reportedSummary := none, processedUnits := [], candidatesFound := none }
  else
    match connect with
    | .connError _ =>
        { exitCode := 1, reportedSummary := none, processedUnits := [],
          candidatesFound := none }
    | .ok pending =>
        if pending.isEmpty then
          { exitCode := 0, reportedSummary := none, processedUnits := [],
            candidatesFound := none }
        else if dryRun then
          { exitCode := 0, reportedSummary := none, processedUnits := [],
            candidatesFound := some pending.length }
        else
          { exitCode := 0,
            reportedSummary := some (batchSummary pending (workerResults behavior order)),
            processedUnits := order,
            candidatesFound := some pending.length }

/-- C7: the stage runner exits with code 0 whenever the batch runs to
completion — whatever the per-unit outcomes, including every unit
failing — and exits with code 1 exactly when argument validation rejects
the worker count or the fatal connect/enumerate section raises. -/
theorem C7_exit_codes (workers : ℤ) (dryRun : Bool) (connect : ConnectOutcome)
    (behavior : PendingFiling → ProcessOutcome) (order : List PendingFiling) :
    ((analyze_parallel_main workers dryRun connect behavior order).exitCode = 0 ∨
      (analyze_parallel_main workers dryRun connect behavior order).exitCode = 1) ∧
    ((analyze_parallel_main workers dryRun connect behavior order).exitCode = 1 ↔
      (workers < 1 ∨ workers > 10 ∨ ∃ msg, connect = .connError msg)) := by
  unfold analyze_parallel_main
  by_cases hw : workers < 1 ∨ workers > 10
  · simp [hw]
    tauto
  · rw [if_neg hw]
    cases connect with
    | connError msg =>
      simp
    | ok pending =>
      by_cases hp : pending.isEmpty
      · simp [hp, hw]
        try tauto
      · by_cases hd : dryRun = true <;>
          simp [hp, hd, hw]

/-- Five concrete ready candidates for the dry-run scenario. -/
def fiveFilings : List PendingFiling :=
  [⟨"f1", "AAPL", "10-K", "Apple"⟩, ⟨"f2", "MSFT", "10-Q", "Microsoft"⟩,
    ⟨"f3", "NVDA", "10-K", "Nvidia"⟩, ⟨"f4", "GOOG", "10-Q", "Alphabet"⟩,
    ⟨"f5", "AMZN", "10-K", "Amazon"⟩]

/-- C9 (amended): a `--dry-run` invocation with a non-empty candidate
list performs no processing and persists nothing (`process_filing` is
never called), reports the number of ready candidates found, and exits 0;
it does not report a succeeded count — the success counter is never
computed, so no `succeeded = N` figure is emitted. -/
theorem C9_dry_run (workers : ℤ) (h1 : 1 ≤ workers) (h2 : workers ≤ 10)
    (pending : List PendingFiling) (hne : pending ≠ [])
    (behavior : PendingFiling → ProcessOutcome) (order : List PendingFiling) :
    analyze_parallel_main workers true (.ok pending) behavior order
      = { exitCode := 0, reportedSummary := none, processedUnits := [],
          candidatesFound := some pending.length } := by
  unfold analyze_parallel_main
  have hw : ¬(workers < 1 ∨ workers > 10) := by omega
  rw [if_neg hw]
  have hp : pending.isEmpty = false := by
    cases pending with
    | nil => exact absurd rfl hne
    | cons a l => rfl
  simp [hp]

theorem C9_dry_run_witness :
    (1 : ℤ) ≤ 3 ∧ (3 : ℤ) ≤ 10 ∧ fiveFilings ≠ [] ∧
    analyze_parallel_main 3 true (.ok fiveFilings)
        (fun _ => ProcessOutcome.returns (some "content-1")) fiveFilings
      = { exitCode := 0, reportedSummary := none, processedUnits := [],
          candidatesFound := some 5 } :=
  ⟨by decide, by decide, by decide,
    C9_dry_run 3 (by decide) (by decide) fiveFilings (by decide)
      (fun _ => ProcessOutcome.returns (some "content-1")) fiveFilings⟩

/-- C9 refutation of the claim as stated: the dry-run invocation on 5
ready candidates reports no summary at all — in particular it does not
report `succeeded = 5`; the run returns before the success counter is
ever computed. -/
theorem C9_dry_run_counterexample :
    (analyze_parallel_main 3 true (.ok fiveFilings)
        (fun _ => ProcessOutcome.returns (some "content-1")) fiveFilings).reportedSummary
      = none ∧
    ¬ ∃ s : BatchSummary,
        (analyze_parallel_main 3 true (.ok fiveFilings)
            (fun _ => ProcessOutcome.returns (some "content-1"))
            fiveFilings).reportedSummary = some s ∧ s.successful = 5 := by
  constructor
  · decide
  · intro ⟨s, hs, _⟩
    rw [show (analyze_parallel_main 3 true (.ok fiveFilings)
        (fun _ => ProcessOutcome.returns (some "content-1"))
        fiveFilings).reportedSummary = none by decide] at hs
    exact Option.noConfusion hs

/-! ## The shared relational store

Rows of the `filings` and `content` tables, restricted to the columns the
orchestration core reads or writes.  The filing `status` column takes the
values written by the pipeline (`'pending'` on insert, `'analyzed'` after
analysis, `'fetched'` from the reset scripts) plus the further values of
the spec's state machine. -/

inductive FilingStatus where
  | pending
  | fetched
  | analyzed
  | published
  | failed
deriving DecidableEq

/-- Position in the forward ordering of the status state machine
(`failed` sits outside the forward chain; it is given the top rank and is
never written by the modelled operations). -/
def statusRank : FilingStatus → ℕ
  | .pending => 0
  | .fetched => 1
  | .analyzed => 2
  | .published => 3
  | .failed => 4

/-- A row of the `filings` table. -/
structure FilingRow where
  filingId : String
  companyId : String
  accessionNumber : String
  status : FilingStatus
deriving DecidableEq

/-- A row of the `content` table.  The analyzer's INSERT
(claude.py lines 688-718) does not name the `status` column, so a new
row carries the schema default (the migrations are not part of the
sources; the default is a parameter of the model).  `blogHtml` models the
`blog_html` column written by the generate stage. -/
structure ContentRecord where
  contentId : ℕ
  filingId : String
  companyId : String
  status : String
  payload : String
  blogHtml : Option String
deriving DecidableEq

/-- The shared relational store: the two core tables plus the
`email_deliveries` rows (content ids) appended by the publish stage. -/
structure Store where
  filings : List FilingRow
  content : List ContentRecord
  deliveries : List ℕ
deriving DecidableEq

/-- A psycopg2 connection: the committed state of the store and this
connection's transaction view (its own uncommitted writes included).
`commit` publishes the view; `rollback` discards it. -/
structure PgConn where
  committed : Store
  view : Store
deriving DecidableEq

/-- Method `BaseAnalyzer.check_if_analyzed` (analyzers/base.py lines 180-201):

    SELECT 1 FROM content WHERE filing_id = %s AND status = 'published'

true iff a content record *with status 'published'* exists for the
filing. -/
def check_if_analyzed (s : Store) (filingId : String) : Bool :=
  s.content.any (fun c => c.filingId == filingId && c.status == "published")

/-- The id the database returns for the inserted content row
(`RETURNING id`): fresh with respect to the connection's view. -/
def nextContentId (s : Store) : ℕ :=
  s.content.foldl (fun m c => max m c.contentId) 0 + 1

/-- The fields of `AnalysisResult` that reach the database write:
the filing id and the (opaque) analysis payload. -/
structure AnalysisResultModel where
  filingId : String
  payload : String
deriving DecidableEq

/-- Result of `ClaudeAnalyzer.save_to_database`: the connection in its
post-call state, and either the new content id or the raised
`DatabaseError`. -/
structure SaveOutcome where
  conn : PgConn
  result : Except String ℕ

/-- Method `ClaudeAnalyzer.save_to_database` (analyzers/claude.py lines 652-741).
The body runs inside one transaction on the connection's view:

1. `SELECT company_id FROM filings WHERE id = %s` — `fetchone()[0]`
   raises when the filing row is missing;
2. `INSERT INTO content (...) VALUES (...) RETURNING id`;
3. `UPDATE filings SET status = 'analyzed' WHERE id = %s`;
4. `commit()`.

Any exception lands in the `except` branch (lines 739-741), which rolls
the transaction back and raises `DatabaseError`.  The booleans inject a
database failure at the corresponding statement. -/
def save_to_database (contentDefaultStatus : String)
    (failInsert failUpdate failCommit : Bool)
    (conn : PgConn) (res : AnalysisResultModel) : SaveOutcome :=
  match conn.view.filings.find? (fun r => r.filingId == res.filingId) with
  | none =>
      { conn := ⟨conn.committed, conn.committed⟩,
        result := .error "Failed to save analysis to database: filing not found" }
  | some row =>
      if failInsert then
        { conn := ⟨conn.committed, conn.committed⟩,
          result := .error "Failed to save analysis to database: insert failed" }
      else
        let newId := nextContentId conn.view
        let view1 : Store :=
          { conn.view with
              content := conn.view.content ++
                [⟨newId, res.filingId, row.companyId, contentDefaultStatus,
                  res.payload, none⟩] }
        if failUpdate then
          { conn := ⟨conn.committed, conn.committed⟩,
            result := .error "Failed to save analysis to database: update failed" }
        else
          let view2 : Store :=
            { view1 with
                filings := view1.filings.map (fun r =>
                  if r.filingId == res.filingId then
                    { r with status := FilingStatus.analyzed }
                  else r) }
          if failCommit then
            { conn := ⟨conn.committed, conn.committed⟩,
              result := .error "Failed to save analysis to database: commit failed" }
          else
            { conn := ⟨view2, view2⟩, result := .ok newId }

/-- Method `BaseAnalyzer.process_filing` (analyzers/base.py lines 203-262):
the idempotency pre-check, then the analyze step (an external LLM call,
modelled by the `analysis` oracle: either the payload or a raised
`AnalysisError`), then `save_to_database`; any exception in the `try`
block is logged and re-raised. -/
def process_filing (contentDefaultStatus : String)
    (failInsert failUpdate failCommit : Bool)
    (skipExisting : Bool) (analysis : Except String String)
    (conn : PgConn) (filingId : String) : PgConn × Except String (Option ℕ) :=
  if skipExisting && check_if_analyzed conn.view filingId then
    (conn, .ok none)
  else
    match analysis with
    | .error e => (conn, .error ("AnalysisError: " ++ e))
    | .ok payload =>
        let out := save_to_database contentDefaultStatus
          failInsert failUpdate failCommit conn ⟨filingId, payload⟩
        match out.result with
        | .error e => (out.conn, .error e)
        | .ok newId => (out.conn, .ok (some newId))

/-- The store produced by a successful `save_to_database` transaction:
the new content row appended and the filing's status set to
`'analyzed'`, in one commit. -/
def analyzedStore (s : Store) (res : AnalysisResultModel)
    (companyId contentDefaultStatus : String) : Store :=
  { filings := s.filings.map (fun r =>
      if r.filingId == res.filingId then { r with status := FilingStatus.analyzed }
      else r),
    content := s.content ++
      [⟨nextContentId s, res.filingId, companyId, contentDefaultStatus,
        res.payload, none⟩],
    deliveries := s.deliveries }

/-- Case analysis of the `save_to_database` transaction: on any raised
exception the connection is rolled back and the committed store
untouched; on success the committed store is the atomic combination of
the content insert and the status update. -/
theorem save_atomic_cases (contentDefaultStatus : String)
    (failInsert failUpdate failCommit : Bool)
    (conn : PgConn) (res : AnalysisResultModel)
    (h : conn.view = conn.committed) :
    (∀ e, (save_to_database contentDefaultStatus failInsert failUpdate failCommit
          conn res).result = .error e →
        (save_to_database contentDefaultStatus failInsert failUpdate failCommit
            conn res).conn.committed = conn.committed ∧
        (save_to_database contentDefaultStatus failInsert failUpdate failCommit
            conn res).conn.view = conn.committed) ∧
    (∀ newId, (save_to_database contentDefaultStatus failInsert failUpdate failCommit
          conn res).result = .ok newId →
        ∃ row, conn.committed.filings.find? (fun r => r.filingId == res.filingId)
            = some row ∧
          (save_to_database contentDefaultStatus failInsert failUpdate failCommit
              conn res).conn.committed
            = analyzedStore conn.committed res row.companyId contentDefaultStatus ∧
          (save_to_database contentDefaultStatus failInsert failUpdate failCommit
              conn res).conn.view
            = (save_to_database contentDefaultStatus failInsert failUpdate failCommit
                conn res).conn.committed ∧
          newId = nextContentId conn.committed) := by
  obtain ⟨comm, vw⟩ := conn
  simp only at h
  subst h
  unfold save_to_database
  cases hfind : vw.filings.find? (fun r => r.filingId == res.filingId) with
  | none =>
    constructor
    · intro e _
      exact ⟨rfl, rfl⟩
    · intro newId hok
      simp at hok
  | some row =>
    by_cases hi : failInsert = true
    · simp only [hfind, hi, if_pos rfl]
      constructor
      · intro e _
        exact ⟨rfl, rfl⟩
      · intro newId hok
        simp at hok
    · have hi2 : failInsert = false := by
        cases failInsert with
        | true => exact absurd rfl hi
        | false => rfl
      by_cases hu : failUpdate = true
      · simp only [hfind, hi2, hu, Bool.false_eq_true, if_false, if_pos rfl]
        constructor
        · intro e _
          exact ⟨rfl, rfl⟩
        · intro newId hok
          simp at hok
      · have hu2 : failUpdate = false := by
          cases failUpdate with
          | true => exact absurd rfl hu
          | false => rfl
        by_cases hc : failCommit = true
        · simp only [hfind, hi2, hu2, hc, Bool.false_eq_true, if_false, if_pos rfl]
          constructor
          · intro e _
            exact ⟨rfl, rfl⟩
          · intro newId hok
            simp at hok
        · have hc2 : failCommit = false := by
            cases failCommit with
            | true => exact absurd rfl hc
            | false => rfl
          simp only [hfind, hi2, hu2, hc2, Bool.false_eq_true, if_false]
          constructor
          · intro e herr
            simp at herr
          · intro newId hok
            simp only [Except.ok.injEq] at hok
            subst hok
            exact ⟨row, rfl, by simp [analyzedStore], by simp, rfl⟩

/-- C10: `save_to_database` is atomic with respect to the store.  Started
on a connection with no transaction in progress, whenever it raises
(filing row missing, or a database failure injected at the insert, the
status update, or the commit) the transaction is rolled back: the
committed store is unchanged and the connection's view is reset to it;
whenever it returns a content id, the content insert and the filing's
status change to `'analyzed'` were committed together by the single
`commit()` call. -/
theorem C10_save_atomic (contentDefaultStatus : String)
    (failInsert failUpdate failCommit : Bool)
    (conn : PgConn) (res : AnalysisResultModel)
    (h : conn.view = conn.committed) :
    (∀ e, (save_to_database contentDefaultStatus failInsert failUpdate failCommit
          conn res).result = .error e →
        (save_to_database contentDefaultStatus failInsert failUpdate failCommit
            conn res).conn.committed = conn.committed ∧
        (save_to_database contentDefaultStatus failInsert failUpdate failCommit
            conn res).conn.view = conn.committed) ∧
    (∀ newId, (save_to_database contentDefaultStatus failInsert failUpdate failCommit
          conn res).result = .ok newId →
        ∃ row, conn.committed.filings.find? (fun r => r.filingId == res.filingId)
            = some row ∧
          (save_to_database contentDefaultStatus failInsert failUpdate failCommit
              conn res).conn.committed
            = analyzedStore conn.committed res row.companyId contentDefaultStatus ∧
          (save_to_database contentDefaultStatus failInsert failUpdate failCommit
              conn res).conn.view
            = (save_to_database contentDefaultStatus failInsert failUpdate failCommit
                conn res).conn.committed ∧
          newId = nextContentId conn.committed) :=
  save_atomic_cases contentDefaultStatus failInsert failUpdate failCommit conn res h

/-- A store holding one pending filing and no content, on a fresh
connection. -/
def okStore : Store :=
  { filings := [⟨"f1", "c1", "acc-1", FilingStatus.pending⟩],
    content := [],
    deliveries := [] }

theorem C10_save_atomic_witness :
    (⟨okStore, okStore⟩ : PgConn).view = (⟨okStore, okStore⟩ : PgConn).committed ∧
    ∃ row, okStore.filings.find? (fun r => r.filingId == "f1") = some row ∧
      (save_to_database "published" false false false ⟨okStore, okStore⟩
          ⟨"f1", "payload"⟩).conn.committed
        = analyzedStore okStore ⟨"f1", "payload"⟩ row.companyId "published" ∧
      (save_to_database "published" false false false ⟨okStore, okStore⟩
          ⟨"f1", "payload"⟩).conn.view
        = (save_to_database "published" false false false ⟨okStore, okStore⟩
            ⟨"f1", "payload"⟩).conn.committed ∧
      (1 : ℕ) = nextContentId okStore :=
  ⟨rfl,
    (C10_save_atomic "published" false false false ⟨okStore, okStore⟩
      ⟨"f1", "payload"⟩ rfl).2 1 rfl⟩

/-- C4 (amended): the idempotency pre-check of `process_filing` is a
point lookup for a content record *with status `'published'`* for the
filing id.  Whenever such a record exists in the connection's view,
`process_filing` with `skip_existing = True` returns `None` without
consulting the analysis oracle and without touching the store. -/
theorem C4_skip_existing (contentDefaultStatus : String)
    (failInsert failUpdate failCommit : Bool)
    (analysis : Except String String) (conn : PgConn) (filingId : String)
    (h : ∃ c ∈ conn.view.content, c.filingId = filingId ∧ c.status = "published") :
    process_filing contentDefaultStatus failInsert failUpdate failCommit
      true analysis conn filingId = (conn, .ok none) := by
  have hchk : check_if_analyzed conn.view filingId = true := by
    obtain ⟨c, hc, h1, h2⟩ := h
    unfold check_if_analyzed
    rw [List.any_eq_true]
    exact ⟨c, hc, by simp [h1, h2]⟩
  unfold process_filing
  simp [hchk]

/-- A store where a content record exists for filing `f1`, but with
status `'draft'` rather than `'published'`. -/
def draftStore : Store :=
  { filings := [⟨"f1", "c1", "acc-1", FilingStatus.pending⟩],
    content := [⟨1, "f1", "c1", "draft", "old analysis", none⟩],
    deliveries := [] }

/-- C4 refutation of the claim as stated: for a filing that has a content
record (status `'draft'`), `process_filing` with `skip_existing = True`
does *not* return `None` — the pre-check only matches `'published'`
records, so the filing is re-analyzed and a second content row is
written (the store changes). -/
theorem C4_skip_existing_counterexample :
    (process_filing "draft" false false false true (.ok "new analysis")
        ⟨draftStore, draftStore⟩ "f1").2 = .ok (some 2) ∧
    (process_filing "draft" false false false true (.ok "new analysis")
        ⟨draftStore, draftStore⟩ "f1").1.committed ≠ draftStore := by
  exact ⟨rfl, by decide⟩

/-- A store where filing `f1` has a published content record. -/
def publishedStore : Store :=
  { filings := [⟨"f1", "c1", "acc-1", FilingStatus.analyzed⟩],
    content := [⟨1, "f1", "c1", "published", "done", none⟩],
    deliveries := [] }

theorem C4_skip_existing_witness :
    (∃ c ∈ (⟨publishedStore, publishedStore⟩ : PgConn).view.content,
        c.filingId = "f1" ∧ c.status = "published") ∧
    process_filing "draft" false false false true (.ok "x")
        ⟨publishedStore, publishedStore⟩ "f1"
      = (⟨publishedStore, publishedStore⟩, .ok none) :=
  ⟨⟨⟨1, "f1", "c1", "published", "done", none⟩, by decide, rfl, rfl⟩,
    C4_skip_existing "draft" false false false (.ok "x")
      ⟨publishedStore, publishedStore⟩ "f1"
      ⟨⟨1, "f1", "c1", "published", "done", none⟩, by decide, rfl, rfl⟩⟩

/-! ## Status monotonicity (C5)

The `filings.status` column is written in exactly these places:

* `EdgarFetcher.save_to_database` / `Edgar13FFetcher.save_to_database`
  (edgar.py lines 483-506, edgar_13f.py lines 215-236):
  `INSERT INTO filings (..., status) VALUES (..., 'pending')`;
* `ClaudeAnalyzer.save_to_database` (claude.py line 724):
  `UPDATE filings SET status = 'analyzed' WHERE id = %s`;
* the explicit reset scripts `scripts/backfill_bull_bear.py` /
  `backfill_bull_bear_90days.py` (`DELETE FROM content ...` then
  `UPDATE filings SET status = 'fetched' WHERE id = %s`), which exist to
  force reprocessing and are the "explicit reset tooling" the claim
  exempts.

The generate stage writes only `content.blog_html` (blog.py lines
908-913) and the publish stage only inserts `email_deliveries` rows
(email.py line 466); neither touches `filings.status`. -/

/-- One store-level write of a normal (non-reset) pipeline operation. -/
inductive PipelineOp where
  | fetchSave (filingId companyId accession : String)
  | analyzerSave (res : AnalysisResultModel) (contentDefaultStatus : String)
      (failInsert failUpdate failCommit : Bool)
  | generateSave (contentId : ℕ) (blogHtml : String)
  | publishSave (contentId : ℕ)

/-- Effect of a normal pipeline operation on the committed store.  The
analyzer write runs `save_to_database` on a fresh connection (each
worker opens its own connection) and keeps whatever that transaction
committed. -/
def applyNormalOp (s : Store) : PipelineOp → Store
  | .fetchSave filingId companyId accession =>
      { s with filings := s.filings ++
          [⟨filingId, companyId, accession, FilingStatus.pending⟩] }
  | .analyzerSave res contentDefaultStatus failInsert failUpdate failCommit =>
      (save_to_database contentDefaultStatus failInsert failUpdate failCommit
        ⟨s, s⟩ res).conn.committed
  | .generateSave contentId blogHtml =>
      { s with content := s.content.map (fun c =>
          if c.contentId == contentId then { c with blogHtml := some blogHtml }
          else c) }
  | .publishSave contentId =>
      { s with deliveries := s.deliveries ++ [contentId] }

/-- Effect of the explicit reset tooling
(scripts/backfill_bull_bear.py `delete_existing_content`): delete the
filing's content rows and set its status back to `'fetched'`. -/
def applyResetOp (s : Store) (filingId : String) : Store :=
  { s with
      content := s.content.filter (fun c => !(c.filingId == filingId)),
      filings := s.filings.map (fun r =>
        if r.filingId == filingId then { r with status := FilingStatus.fetched }
        else r) }

/-- A sequence of normal pipeline operations applied in order. -/
def applyNormalOps (s : Store) (ops : List PipelineOp) : Store :=
  ops.foldl applyNormalOp s

/-- The status of a filing as observed through the store. -/
def statusOf (s : Store) (filingId : String) : Option FilingStatus :=
  (s.filings.find? (fun r => r.filingId == filingId)).map (fun r => r.status)

/-- Statuses that the code ever writes to a filing row: `'pending'` on
insert, `'analyzed'` from the analyzer, `'fetched'` from the reset
scripts.  Every store reachable from an empty store through pipeline and
reset operations satisfies this. -/
def WrittenStatuses (s : Store) : Prop :=
  ∀ r ∈ s.filings, r.status = FilingStatus.pending ∨
    r.status = FilingStatus.fetched ∨ r.status = FilingStatus.analyzed

theorem find?_map_status (l : List FilingRow) (g : FilingRow → FilingRow)
    (hg : ∀ r, (g r).filingId = r.filingId) (filingId : String) :
    (l.map g).find? (fun r => r.filingId == filingId)
      = (l.find? (fun r => r.filingId == filingId)).map g := by
  induction l with
  | nil => rfl
  | cons a l ih =>
    by_cases ha : a.filingId == filingId
    · rw [List.map_cons, List.find?_cons_of_pos, List.find?_cons_of_pos]
      · rfl
      · exact ha
      · simpa [hg] using ha
    · rw [List.map_cons, List.find?_cons_of_neg, List.find?_cons_of_neg, ih]
      · simpa using ha
      · simpa [hg] using ha

/-- After a successful analyzer save, a filing's observed status is its
old status or `'analyzed'`. -/
theorem statusOf_analyzedStore (s : Store) (res : AnalysisResultModel)
    (companyId contentDefaultStatus : String) (filingId : String)
    (st : FilingStatus) (h : statusOf s filingId = some st) :
    statusOf (analyzedStore s res companyId contentDefaultStatus) filingId = some st ∨
    statusOf (analyzedStore s res companyId contentDefaultStatus) filingId
      = some FilingStatus.analyzed := by
  unfold statusOf at h ⊢
  unfold analyzedStore
  simp only
  rw [find?_map_status]
  · cases hf : s.filings.find? (fun r => r.filingId == filingId) with
    | none => rw [hf] at h; simp at h
    | some row =>
      rw [hf] at h
      simp at h
      by_cases hrow : (row.filingId == res.filingId) = true
      · right
        rw [Option.map_some', Option.map_some', if_pos hrow]
      · left
        rw [Option.map_some', Option.map_some', if_neg hrow]
        simpa using h
  · intro r
    by_cases hr : r.filingId == res.filingId
    · rw [if_pos hr]
    · rw [if_neg hr]

/-- The committed store after an analyzer save is either unchanged (the
transaction rolled back) or the atomic `analyzedStore` result. -/
theorem analyzerSave_committed (s : Store) (res : AnalysisResultModel)
    (contentDefaultStatus : String) (failInsert failUpdate failCommit : Bool) :
    (save_to_database contentDefaultStatus failInsert failUpdate failCommit
        ⟨s, s⟩ res).conn.committed = s ∨
    ∃ row, s.filings.find? (fun r => r.filingId == res.filingId) = some row ∧
      (save_to_database contentDefaultStatus failInsert failUpdate failCommit
          ⟨s, s⟩ res).conn.committed
        = analyzedStore s res row.companyId contentDefaultStatus := by
  have h := save_atomic_cases contentDefaultStatus failInsert failUpdate failCommit
    ⟨s, s⟩ res rfl
  cases hres : (save_to_database contentDefaultStatus failInsert failUpdate failCommit
      ⟨s, s⟩ res).result with
  | error e => exact Or.inl (h.1 e hres).1
  | ok newId =>
    obtain ⟨row, hrow, hcomm, _, _⟩ := h.2 newId hres
    exact Or.inr ⟨row, hrow, hcomm⟩

/-- One normal pipeline operation never deletes a filing row and never
lowers an observed filing status. -/
theorem statusOf_step (s : Store) (hw : WrittenStatuses s) (op : PipelineOp)
    (fid : String) (st : FilingStatus) (h : statusOf s fid = some st) :
    ∃ st', statusOf (applyNormalOp s op) fid = some st' ∧
      statusRank st ≤ statusRank st' := by
  cases op with
  | fetchSave filingId companyId accession =>
    refine ⟨st, ?_, le_refl _⟩
    simp only [applyNormalOp]
    unfold statusOf at h ⊢
    simp only [List.find?_append]
    cases hf : s.filings.find? (fun r => r.filingId == fid) with
    | none => rw [hf] at h; simp at h
    | some row =>
      rw [hf] at h
      rw [Option.or_some]
      exact h
  | analyzerSave res contentDefaultStatus failInsert failUpdate failCommit =>
    rcases analyzerSave_committed s res contentDefaultStatus
        failInsert failUpdate failCommit with hsame | ⟨row, _, hchanged⟩
    · refine ⟨st, ?_, le_refl _⟩
      simp only [applyNormalOp]
      rw [hsame]
      exact h
    · rcases statusOf_analyzedStore s res row.companyId contentDefaultStatus
          fid st h with hold | hnew
      · refine ⟨st, ?_, le_refl _⟩
        simp only [applyNormalOp]
        rw [hchanged]
        exact hold
      · refine ⟨FilingStatus.analyzed, ?_, ?_⟩
        · simp only [applyNormalOp]
          rw [hchanged]
          exact hnew
        · unfold statusOf at h
          cases hf : s.filings.find? (fun r => r.filingId == fid) with
          | none => rw [hf] at h; simp at h
          | some r0 =>
            rw [hf] at h
            simp at h
            have hmem : r0 ∈ s.filings := List.mem_of_find?_eq_some hf
            rcases hw r0 hmem with h0 | h0 | h0 <;>
              rw [← h, h0] <;> simp [statusRank]
  | generateSave contentId blogHtml =>
    exact ⟨st, h, le_refl _⟩
  | publishSave contentId =>
    exact ⟨st, h, le_refl _⟩

/-- Normal pipeline operations only ever write `'pending'` and
`'analyzed'` into filing rows, so the written-statuses invariant is
preserved. -/
theorem writtenStatuses_step (s : Store) (hw : WrittenStatuses s)
    (op : PipelineOp) : WrittenStatuses (applyNormalOp s op) := by
  cases op with
  | fetchSave filingId companyId accession =>
    intro r hr
    simp only [applyNormalOp] at hr
    simp only [List.mem_append, List.mem_singleton] at hr
    rcases hr with hr | hr
    · exact hw r hr
    · subst hr
      exact Or.inl rfl
  | analyzerSave res contentDefaultStatus failInsert failUpdate failCommit =>
    rcases analyzerSave_committed s res contentDefaultStatus
        failInsert failUpdate failCommit with hsame | ⟨row, _, hchanged⟩
    · simp only [applyNormalOp]
      rw [hsame]
      exact hw
    · simp only [applyNormalOp]
      rw [hchanged]
      intro r hr
      unfold analyzedStore at hr
      simp only [List.mem_map] at hr
      obtain ⟨r0, hr0, hmap⟩ := hr
      by_cases hb : (r0.filingId == res.filingId) = true
      · rw [if_pos hb] at hmap
        subst hmap
        exact Or.inr (Or.inr rfl)
      · rw [if_neg hb] at hmap
        subst hmap
        exact hw r0 hr0
  | generateSave contentId blogHtml =>
    intro r hr
    exact hw r hr
  | publishSave contentId =>
    intro r hr
    exact hw r hr

/-- The reset tooling writes only `'fetched'`, so it too preserves the
written-statuses invariant (it is excluded from the monotonicity claim,
but keeps reachable stores inside the invariant). -/
theorem writtenStatuses_reset (s : Store) (hw : WrittenStatuses s)
    (filingId : String) : WrittenStatuses (applyResetOp s filingId) := by
  intro r hr
  unfold applyResetOp at hr
  simp only [List.mem_map] at hr
  obtain ⟨r0, hr0, hmap⟩ := hr
  by_cases hb : (r0.filingId == filingId) = true
  · rw [if_pos hb] at hmap
    subst hmap
    exact Or.inr (Or.inl rfl)
  · rw [if_neg hb] at hmap
    subst hmap
    exact hw r0 hr0

/-- The empty store satisfies the written-statuses invariant. -/
theorem writtenStatuses_empty : WrittenStatuses ⟨[], [], []⟩ := by
  intro r hr
  cases hr

/-- C5: starting from any store whose filing statuses are ones the code
writes (an invariant preserved by every pipeline operation and by the
reset tooling, and true of the empty store), every sequence of normal
pipeline status writes leaves each filing's observed status unchanged or
advances it in the ordering `pending < fetched < analyzed < published`:
observed statuses over time are non-decreasing, and no operation other
than the explicit reset tooling moves a status backward (no normal
operation writes `failed`, so the claim's exception is vacuous here). -/
theorem C5_status_monotone (s : Store) (hw : WrittenStatuses s)
    (ops : List PipelineOp) (fid : String) (st st' : FilingStatus)
    (h1 : statusOf s fid = some st)
    (h2 : statusOf (applyNormalOps s ops) fid = some st') :
    statusRank st ≤ statusRank st' := by
  induction ops generalizing s st with
  | nil =>
    unfold applyNormalOps at h2
    simp only [List.foldl_nil] at h2
    rw [h1] at h2
    simp at h2
    rw [h2]
  | cons op rest ih =>
    obtain ⟨st1, hst1, hrank⟩ := statusOf_step s hw op fid st h1
    have hw1 := writtenStatuses_step s hw op
    have h2r : statusOf (applyNormalOps (applyNormalOp s op) rest) fid = some st' := h2
    exact le_trans hrank (ih (applyNormalOp s op) hw1 st1 hst1 h2r)

theorem C5_status_monotone_witness :
    WrittenStatuses okStore ∧
    statusOf okStore "f1" = some FilingStatus.pending ∧
    statusOf (applyNormalOps okStore
        [PipelineOp.analyzerSave ⟨"f1", "payload"⟩ "published" false false false])
        "f1" = some FilingStatus.analyzed ∧
    statusRank FilingStatus.pending ≤ statusRank FilingStatus.analyzed :=
  ⟨by unfold WrittenStatuses; decide, by decide, by decide,
    C5_status_monotone okStore (by unfold WrittenStatuses; decide)
      [PipelineOp.analyzerSave ⟨"f1", "payload"⟩ "published" false false false]
      "f1" FilingStatus.pending FilingStatus.analyzed (by decide) (by decide)⟩

/-! ## Fetch stage idempotency (pipeline/fetchers/base.py)

`BaseFetcher.process_company` (lines 178-246) iterates over the list
returned by `fetch_latest_filings`; for each filing it either skips via
`check_if_exists` on the accession number, or runs
download → upload → save inside a `try` whose `except` continues with
the next filing.  The external steps are oracles; the completed external
operations are tracked as an effect list. -/

/-- The fields of `FilingMetadata` the orchestration core uses. -/
structure FilingMetadataModel where
  accessionNumber : String
  ticker : String
deriving DecidableEq

/-- Method `BaseFetcher.check_if_exists` (base.py lines 155-176):

    SELECT 1 FROM filings WHERE accession_number = %s -/
def check_if_exists (s : Store) (accessionNumber : String) : Bool :=
  s.filings.any (fun r => r.accessionNumber == accessionNumber)

/-- How the download/upload/save sequence of one filing behaves. -/
inductive FetchUnitBehavior where
  | succeeds
  | failDownload
  | failUpload
  | failSave
deriving DecidableEq

/-- An external operation performed while processing one filing. -/
inductive FetchEffect where
  | download (accessionNumber : String)
  | upload (accessionNumber : String)
  | saveDb (accessionNumber : String)
deriving DecidableEq

/-- Method `EdgarFetcher.save_to_database` for filings (edgar.py lines 470-530):
inserts the filing row with status `'pending'`; the row id is generated
by the database. -/
def fetcher_save_to_database (s : Store) (f : FilingMetadataModel) : Store :=
  { s with filings := s.filings ++
      [⟨"filing-" ++ f.accessionNumber, f.ticker, f.accessionNumber,
        FilingStatus.pending⟩] }

/-- Method `BaseFetcher.process_company` (base.py lines 178-246): returns the
number of filings processed, the final store, and the external
operations performed.  A failed save rolls its transaction back
(edgar.py line 529), so only a fully successful unit adds a row and
counts as processed. -/
def process_company (skipExisting : Bool)
    (behavior : FilingMetadataModel → FetchUnitBehavior) :
    List FilingMetadataModel → Store → ℕ × Store × List FetchEffect
  | [], s => (0, s, [])
  | f :: rest, s =>
    if skipExisting && check_if_exists s f.accessionNumber then
      process_company skipExisting behavior rest s
    else
      match behavior f with
      | .failDownload =>
          let r := process_company skipExisting behavior rest s
          (r.1, r.2.1, .download f.accessionNumber :: r.2.2)
      | .failUpload =>
          let r := process_company skipExisting behavior rest s
          (r.1, r.2.1,
            .download f.accessionNumber :: .upload f.accessionNumber :: r.2.2)
      | .failSave =>
          let r := process_company skipExisting behavior rest s
          (r.1, r.2.1,
            .download f.accessionNumber :: .upload f.accessionNumber ::
              .saveDb f.accessionNumber :: r.2.2)
      | .succeeds =>
          let r := process_company skipExisting behavior rest
            (fetcher_save_to_database s f)
          (r.1 + 1, r.2.1,
            .download f.accessionNumber :: .upload f.accessionNumber ::
              .saveDb f.accessionNumber :: r.2.2)

/-- Running `process_company` never removes filing rows, so an accession number
present in the store stays present. -/
theorem check_if_exists_mono (skipExisting : Bool)
    (behavior : FilingMetadataModel → FetchUnitBehavior) :
    ∀ (filings : List FilingMetadataModel) (s : Store) (acc : String),
      check_if_exists s acc = true →
      check_if_exists (process_company skipExisting behavior filings s).2.1 acc
        = true
  | [], s, acc, h => h
  | f :: rest, s, acc, h => by
    unfold process_company
    by_cases hskip : (skipExisting && check_if_exists s f.accessionNumber) = true
    · rw [if_pos hskip]
      exact check_if_exists_mono skipExisting behavior rest s acc h
    · rw [if_neg hskip]
      have hgrow : check_if_exists (fetcher_save_to_database s f) acc = true := by
        unfold check_if_exists at h ⊢
        unfold fetcher_save_to_database
        simp only [List.any_append]
        rw [h]
        rfl
      cases hb : behavior f with
      | succeeds =>
          exact check_if_exists_mono skipExisting behavior rest
            (fetcher_save_to_database s f) acc hgrow
      | failDownload =>
          exact check_if_exists_mono skipExisting behavior rest s acc h
      | failUpload =>
          exact check_if_exists_mono skipExisting behavior rest s acc h
      | failSave =>
          exact check_if_exists_mono skipExisting behavior rest s acc h

/-- After a run in which every fetched filing's unit succeeded, every
fetched accession number exists in the store (it was either persisted by
this run or already present and skipped). -/
theorem all_persisted_after_success (behavior : FilingMetadataModel → FetchUnitBehavior) :
    ∀ (filings : List FilingMetadataModel) (s : Store),
      (∀ f ∈ filings, behavior f = .succeeds) →
      ∀ f ∈ filings,
        check_if_exists (process_company true behavior filings s).2.1
          f.accessionNumber = true
  | [], _, _, f, hf => absurd hf (List.not_mem_nil f)
  | g :: rest, s, hall, f, hf => by
    unfold process_company
    by_cases hskip : (true && check_if_exists s g.accessionNumber) = true
    · rw [if_pos hskip]
      rcases List.mem_cons.mp hf with hfg | hfr
      · subst hfg
        exact check_if_exists_mono true behavior rest s f.accessionNumber
          (by simpa using hskip)
      · exact all_persisted_after_success behavior rest s
          (fun x hx => hall x (List.mem_cons_of_mem g hx)) f hfr
    · rw [if_neg hskip]
      rw [hall g (List.mem_cons_self g rest)]
      rcases List.mem_cons.mp hf with hfg | hfr
      · subst hfg
        refine check_if_exists_mono true behavior rest
          (fetcher_save_to_database s f) f.accessionNumber ?_
        unfold check_if_exists fetcher_save_to_database
        simp
      · exact all_persisted_after_success behavior rest
          (fetcher_save_to_database s g)
          (fun x hx => hall x (List.mem_cons_of_mem g hx)) f hfr

/-- When every fetched accession number already exists in the store,
a `skip_existing` run skips every filing: zero processed, the store
untouched, no external operation. -/
theorem second_run_skips_all (behavior : FilingMetadataModel → FetchUnitBehavior) :
    ∀ (filings : List FilingMetadataModel) (s : Store),
      (∀ f ∈ filings, check_if_exists s f.accessionNumber = true) →
      process_company true behavior filings s = (0, s, [])
  | [], s, _ => rfl
  | f :: rest, s, hall => by
    unfold process_company
    rw [if_pos (by simpa using hall f (List.mem_cons_self f rest))]
    exact second_run_skips_all behavior rest s
      (fun x hx => hall x (List.mem_cons_of_mem f hx))

/-- C8: fetch is idempotent under `skip_existing = True`.  If the first
run persisted every filing returned by `fetch_latest_filings` (in
particular whenever every unit of the first run succeeded), then a
second run over the same filing list skips every filing via the
accession-number existence check: it performs no download, upload or
database save, leaves the store unchanged, and returns 0. -/
theorem C8_fetch_idempotent (filings : List FilingMetadataModel) (s : Store)
    (b1 b2 : FilingMetadataModel → FetchUnitBehavior) :
    ((∀ f ∈ filings, b1 f = .succeeds) →
      ∀ f ∈ filings,
        check_if_exists (process_company true b1 filings s).2.1
          f.accessionNumber = true) ∧
    ((∀ f ∈ filings,
        check_if_exists (process_company true b1 filings s).2.1
          f.accessionNumber = true) →
      process_company true b2 filings (process_company true b1 filings s).2.1
        = (0, (process_company true b1 filings s).2.1, [])) :=
  ⟨fun hall => all_persisted_after_success b1 filings s hall,
    fun hpers => second_run_skips_all b2 filings
      (process_company true b1 filings s).2.1 hpers⟩

/-- The empty store. -/
def emptyStore : Store := ⟨[], [], []⟩

theorem C8_fetch_idempotent_witness :
    (∀ f ∈ [(⟨"acc-1", "AAPL"⟩ : FilingMetadataModel)],
        (fun _ => FetchUnitBehavior.succeeds) f = FetchUnitBehavior.succeeds) ∧
    process_company true (fun _ => FetchUnitBehavior.succeeds)
        [⟨"acc-1", "AAPL"⟩]
        (process_company true (fun _ => FetchUnitBehavior.succeeds)
          [⟨"acc-1", "AAPL"⟩] emptyStore).2.1
      = (0,
          (process_company true (fun _ => FetchUnitBehavior.succeeds)
            [⟨"acc-1", "AAPL"⟩] emptyStore).2.1, []) := by
  have h := C8_fetch_idempotent [⟨"acc-1", "AAPL"⟩] emptyStore
    (fun _ => FetchUnitBehavior.succeeds) (fun _ => FetchUnitBehavior.succeeds)
  exact ⟨fun f _ => rfl, h.2 (h.1 (fun f _ => rfl))⟩

/-! ## Phase-overlap orchestrator (orchestrate_parallel.py, lines 224-281)

The monitoring loop polls the analyze progress while the analyze
subprocess is alive; in overlap mode (`--analyze-only` not set), on the
first poll whose percentage reaches the hard-coded 10 threshold it
launches the generate subprocess and sets `generate_triggered = True`,
after which the trigger block is never entered again. -/

/-- Orchestrator trigger state: `generate_triggered`, the poll index at
which generate was launched, and the number of launch calls made. -/
structure MonitorState where
  triggered : Bool
  firedAt : Option ℕ
  launches : ℕ
deriving DecidableEq

/-- One iteration of the trigger block (orchestrate_parallel.py lines
260-266) at poll index `i` observing progress `percent`. -/
def pollStep (analyzeOnly : Bool) (i : ℕ) (st : MonitorState) (percent : ℚ) :
    MonitorState :=
  if st.triggered = false ∧ analyzeOnly = false ∧ 10 ≤ percent then
    { triggered := true, firedAt := some i, launches := st.launches + 1 }
  else st

/-- The monitoring loop over the sequence of polled progress values. -/
def pollLoop (analyzeOnly : Bool) : ℕ → MonitorState → List ℚ → MonitorState
  | _, st, [] => st
  | i, st, p :: rest => pollLoop analyzeOnly (i + 1) (pollStep analyzeOnly i st p) rest

/-- A full monitoring run starting untriggered at poll index 0. -/
def monitorRun (analyzeOnly : Bool) (percents : List ℚ) : MonitorState :=
  pollLoop analyzeOnly 0 ⟨false, none, 0⟩ percents

/-- Once triggered, the loop never changes state again. -/
theorem pollLoop_triggered (analyzeOnly : Bool) :
    ∀ (ps : List ℚ) (i : ℕ) (firedAt : Option ℕ) (launches : ℕ),
      pollLoop analyzeOnly i ⟨true, firedAt, launches⟩ ps
        = ⟨true, firedAt, launches⟩
  | [], _, _, _ => rfl
  | p :: rest, i, firedAt, launches => by
    unfold pollLoop pollStep
    rw [if_neg (by simp)]
    exact pollLoop_triggered analyzeOnly rest (i + 1) firedAt launches

/-- In overlap mode the loop fires exactly at the first polled value that
reaches the threshold (if any); poll indices count from the starting
index `i`. -/
theorem pollLoop_characterization :
    ∀ (ps : List ℚ) (i : ℕ),
      pollLoop false i ⟨false, none, 0⟩ ps
        = match ps.findIdx? (fun p => decide (10 ≤ p)) i with
          | none => ⟨false, none, 0⟩
          | some j => ⟨true, some j, 1⟩
  | [], _ => rfl
  | p :: rest, i => by
    by_cases hp : 10 ≤ p
    · unfold pollLoop pollStep
      rw [if_pos ⟨rfl, rfl, hp⟩]
      rw [pollLoop_triggered false rest (i + 1) (some i) 1]
      simp [List.findIdx?_cons, hp]
    · unfold pollLoop pollStep
      rw [if_neg (by simp [hp])]
      rw [pollLoop_characterization rest (i + 1)]
      simp [List.findIdx?_cons, hp]

/-- C3: in overlap mode, while the analyze subprocess is alive the
generate phase is launched at most once per orchestrator run, exactly on
the first poll whose progress percentage reaches the 10 threshold; for
the polled sequence [0, 5, 9, 11, 50], it fires exactly once, on the
poll observing 11 (index 3). -/
theorem C3_threshold_trigger (percents : List ℚ) :
    (monitorRun false percents).launches ≤ 1 ∧
    (monitorRun false percents).firedAt
      = percents.findIdx? (fun p => decide (10 ≤ p)) ∧
    (monitorRun false percents).launches
      = (if (percents.findIdx? (fun p => decide (10 ≤ p))).isSome then 1 else 0) ∧
    (monitorRun false [0, 5, 9, 11, 50]).firedAt = some 3 ∧
    (monitorRun false [0, 5, 9, 11, 50]).launches = 1 := by
  have hconc : monitorRun false [0, 5, 9, 11, 50] = ⟨true, some 3, 1⟩ := by
    unfold monitorRun
    rw [pollLoop_characterization [0, 5, 9, 11, 50] 0]
    norm_num
  refine ⟨?_, ?_, ?_, by rw [hconc], by rw [hconc]⟩ <;>
    (unfold monitorRun
     rw [pollLoop_characterization percents 0]
     cases hidx : percents.findIdx? (fun p => decide (10 ≤ p)) 0 <;> simp)

end TenKay
